import Mathlib

/-!
Verification of the chat-turn state machine and stream codec of the
sonicthinking repository.

The embedding follows the source:
* the client-side chat context (`app/context/chat` shipped here as
  `src/unnamed/part_003`): message type, `updateStreamingContent`,
  `finalizeStreamingMessage`, `sendMessage` (entry guards, streaming read
  loop, catch handler), `regenerateMessage` (validation, history push),
* the server route `src/app/routes/api.stream.ts`: the encoder that emits
  text fragments, the completion marker and the trailing JSON object.

Text is modelled as `List Char` (`Str`), so every definition is executable
and statements decide.  JavaScript `undefined` fields are `Option`s.
-/

abbrev Str := List Char

/-- The client `Message` type, part_003 lines 7-17.  Optional fields are
JavaScript-optional (`undefined` = `none`). -/
structure Message where
  id : String
  chat_id : String
  role : String
  content : Str
  created_at : String
  user_id : Option String := none
  isStreaming : Option Bool := none
  streamingContent : Option Str := none
  history : Option (List Str) := none
deriving DecidableEq, Repr

/-- `updateStreamingContent` (part_003 lines 110-118): append the chunk to
the target message's `streamingContent`, treating a missing buffer as
`""` exactly as `(msg.streamingContent || "")` does. -/
def updateStreamingContent (messageId : String) (chunk : Str)
    (msgs : List Message) : List Message :=
  msgs.map fun msg =>
    if msg.id = messageId
    then { msg with streamingContent := some ((msg.streamingContent.getD []) ++ chunk) }
    else msg

/-- `finalizeStreamingMessage` (part_003 lines 121-130): set the final
content, clear the streaming flag and buffer.  (The source also runs
`setIsLoading(false)`; the loading flag is threaded where it matters.) -/
def finalizeStreamingMessage (messageId : String) (finalContent : Str)
    (msgs : List Message) : List Message :=
  msgs.map fun msg =>
    if msg.id = messageId
    then { msg with content := finalContent, isStreaming := some false,
                    streamingContent := none }
    else msg

/-- The state update at the start of `regenerateMessage`
(part_003 lines 422-434): store the new history, raise the streaming
flag, clear the buffer and the old content. -/
def regenStartUpdate (messageId : String) (newHistory : List Str)
    (msgs : List Message) : List Message :=
  msgs.map fun msg =>
    if msg.id = messageId
    then { msg with history := some newHistory, isStreaming := some true,
                    streamingContent := some [], content := [] }
    else msg

/-- The message-list update in `sendMessage`'s catch handler for a
non-abort error (part_003 line 373):
`prev.filter(msg => msg.id !== assistantMessageId && msg.role === 'assistant')`. -/
def sendErrorFilter (assistantMessageId : String)
    (msgs : List Message) : List Message :=
  msgs.filter fun msg => msg.id != assistantMessageId && msg.role == "assistant"

/-- Whole catch-handler outcome for a non-abort error
(part_003 lines 366-377): error string set, placeholder filter applied,
loading cleared. -/
structure CatchOutcome where
  msgs : List Message
  error : Option String
  isLoading : Bool
deriving DecidableEq, Repr

/-- `sendMessage` catch handler when `err.name !== 'AbortError'`
(part_003 lines 369-376). -/
def sendErrorCatch (assistantMessageId : String) (errMsg : String)
    (msgs : List Message) : CatchOutcome :=
  { msgs := sendErrorFilter assistantMessageId msgs
    error := some errMsg
    isLoading := false }

/-- The user message `sendMessage` appends (part_003 lines 204-212). -/
def userMessageOf (id chatId : String) (content : Str)
    (createdAt uid : String) : Message :=
  { id := id, chat_id := chatId, role := "user", content := content,
    created_at := createdAt, user_id := some uid }

/-- The assistant placeholder `sendMessage` appends
(part_003 lines 237-247): empty content, `isStreaming: true`, empty
streaming buffer. -/
def assistantPlaceholder (id chatId : String) (createdAt uid : String) : Message :=
  { id := id, chat_id := chatId, role := "assistant", content := [],
    created_at := createdAt, user_id := some uid,
    isStreaming := some true, streamingContent := some [] }

/-- The two `setMessages` updates one streaming `sendMessage` turn performs
before its first `reader.read()` suspension: append the user message
(line 212), then append the assistant placeholder (line 247). -/
def sendPreLoop (userMsgId assistantMsgId chatId : String) (content : Str)
    (createdAt uid : String) (msgs : List Message) : List Message :=
  (msgs ++ [userMessageOf userMsgId chatId content createdAt uid])
    ++ [assistantPlaceholder assistantMsgId chatId createdAt uid]

/-- Number of messages currently flagged as streaming. -/
def countStreaming (msgs : List Message) : Nat :=
  msgs.countP fun m => m.isStreaming == some true

/-- The spec invariant: at most one message of the conversation is
streaming. -/
def atMostOneStreaming (msgs : List Message) : Prop :=
  countStreaming msgs ≤ 1

instance : DecidablePred atMostOneStreaming := fun msgs =>
  inferInstanceAs (Decidable (countStreaming msgs ≤ 1))

/-! ## Stream transport codec -/

/-- Opening brace character (written by code point to keep string literals
brace-free). -/
def lbrace : Char := '\x7b'

/-- Closing brace character. -/
def rbrace : Char := '\x7d'

/-- The completion marker both decode loops search for
(part_003 lines 301, 474) and the encoder writes
(api.stream.ts line 112). -/
def streamCompleteMarker : Str := "\n\n__STREAM_COMPLETE__\n\n".data

/-- `String.prototype.indexOf` on character lists: index of the first
occurrence of `pat`, `none` when absent (JS returns `-1`). -/
def strIndexOf (pat : Str) : Str → Option Nat
  | [] => if pat.isPrefixOf ([] : Str) then some 0 else none
  | c :: rest =>
      if pat.isPrefixOf (c :: rest) then some 0
      else (strIndexOf pat rest).map (· + 1)

/-- JSON whitespace skipping for the mini `JSON.parse` model. -/
def skipJsonWs : Str → Str :=
  List.dropWhile fun c => c == ' ' || c == '\n' || c == '\r' || c == '\t'

/-- Body of a JSON string after its opening quote: returns the decoded
characters and the remainder after the closing quote.  Handles the basic
escapes `JSON.stringify` emits for string fields. -/
def parseJsonStringBody : Nat → Str → Option (Str × Str)
  | 0, _ => none
  | _, [] => none
  | fuel + 1, c :: rest =>
      if c = '"' then some ([], rest)
      else if c = '\\' then
        match rest with
        | [] => none
        | e :: rest2 =>
            let dec : Option Char :=
              if e = '"' then some '"'
              else if e = '\\' then some '\\'
              else if e = '/' then some '/'
              else if e = 'n' then some '\n'
              else if e = 'r' then some '\r'
              else if e = 't' then some '\t'
              else none
            match dec with
            | none => none
            | some d => (parseJsonStringBody fuel rest2).map fun p => (d :: p.1, p.2)
      else (parseJsonStringBody fuel rest).map fun p => (c :: p.1, p.2)

/-- A JSON string literal (leading whitespace allowed). -/
def parseJsonStr (s : Str) : Option (Str × Str) :=
  match skipJsonWs s with
  | c :: rest => if c = '"' then parseJsonStringBody (rest.length + 1) rest else none
  | [] => none

/-- Members of a flat JSON object of string fields: `"k":"v"` pairs
separated by commas, ending at the closing brace. -/
def parseJsonMembers : Nat → Str → Option (List (Str × Str) × Str)
  | 0, _ => none
  | fuel + 1, s =>
      match parseJsonStr s with
      | none => none
      | some (k, r1) =>
          match skipJsonWs r1 with
          | ':' :: r2 =>
              match parseJsonStr r2 with
              | none => none
              | some (v, r3) =>
                  match skipJsonWs r3 with
                  | c :: r4 =>
                      if c = ',' then
                        (parseJsonMembers fuel r4).map fun p => ((k, v) :: p.1, p.2)
                      else if c = rbrace then some ([(k, v)], r4)
                      else none
                  | [] => none
          | _ => none

/-- Model of `JSON.parse` restricted to the payload the encoder produces
(api.stream.ts lines 112-119): one flat object whose keys and values are
strings.  Any other input fails, as `JSON.parse` throws on e.g. `""`. -/
def jsonParse (s : Str) : Option (List (Str × Str)) :=
  match skipJsonWs s with
  | c :: rest =>
      if c = lbrace then
        match skipJsonWs rest with
        | c2 :: r2 =>
            if c2 = rbrace then
              if (skipJsonWs r2).isEmpty then some [] else none
            else
              match parseJsonMembers (s.length + 1) (c2 :: r2) with
              | some (prs, r3) => if (skipJsonWs r3).isEmpty then some prs else none
              | none => none
        | [] => none
      else none
  | [] => none

/-- Field access on a parsed object (`messageData.content` etc.);
`none` models JavaScript `undefined`. -/
def jsonGet (obj : List (Str × Str)) (key : Str) : Option Str :=
  (obj.find? fun p => p.1 == key).map Prod.snd

/-- One resolution of `reader.read()` as the decode loop sees it. -/
inductive ReadEvent
  | chunk (s : Str)
  | done
deriving DecidableEq, Repr

/-- How the `while (true)` decode loop (part_003 lines 283-317) exits:
either the abort check at line 286 fired, or the loop broke via `done`
or the completion marker. -/
inductive LoopExit
  | aborted (buf : Str) (updates : List Str)
  | finished (buf : Str) (markerIdx : Option Nat)
      (meta : Option (List (Str × Str))) (updates : List Str)
deriving DecidableEq, Repr

/-- The decode loop of `sendMessage` (part_003 lines 283-317; the loop in
`regenerateMessage`, lines 459-492, is identical).  Each event carries the
value of `controller.signal.aborted` observed at line 286 together with
the read result.  An exhausted event list stands for the stream's `done`
signal.  On a chunk, the chunk is appended to the buffer, the whole
buffer is searched for the marker; if found, the tail is fed to
`JSON.parse` and the buffer is trimmed only when parsing succeeds
(lines 303-312); otherwise the chunk is forwarded to
`updateStreamingContent` (line 315). -/
def readLoop : List (Bool × ReadEvent) → Str → List Str → LoopExit
  | [], buf, updates => LoopExit.finished buf none none updates
  | (ab, ev) :: rest, buf, updates =>
      if ab then LoopExit.aborted buf updates
      else
        match ev with
        | ReadEvent.done => LoopExit.finished buf none none updates
        | ReadEvent.chunk s =>
            let buf2 := buf ++ s
            match strIndexOf streamCompleteMarker buf2 with
            | some idx =>
                let jsonData := buf2.drop (idx + 23)
                match jsonParse jsonData with
                | some meta =>
                    LoopExit.finished (buf2.take idx) (some idx) (some meta) updates
                | none => LoopExit.finished buf2 (some idx) none updates
            | none => readLoop rest buf2 (updates ++ [s])

/-- Observable outcome of one streaming turn's decode phase. -/
structure StreamOutcome where
  /-- chunks handed to `updateStreamingContent`, in receipt order -/
  updates : List Str
  /-- the argument of the single `finalizeStreamingMessage` call;
  `none` models finalizing with JavaScript `undefined` (metadata parsed
  but without a `content` field) -/
  finalizeArg : Option Str
  /-- content of the database insert of the assistant message,
  `none` when the insert is skipped -/
  dbInsert : Option Str
  /-- the parsed trailing metadata, if any -/
  meta : Option (List (Str × Str))
  abortedDuringRead : Bool
  isLoadingAfter : Bool
deriving DecidableEq, Repr

/-- The read loop plus its continuation (part_003 lines 283-351): the
abort branch finalizes with the partial buffer, forces loading off and
returns before the database insert (lines 286-294); the normal exit
recomputes `finalContent` from the stored marker index (lines 322-324),
inserts `finalContent` into the database (lines 327-345) and finalizes
with `messageData.content` when metadata parsed, else with
`finalContent` (lines 347-351). -/
def processStream (events : List (Bool × ReadEvent)) : StreamOutcome :=
  match readLoop events [] [] with
  | LoopExit.aborted buf updates =>
      { updates := updates, finalizeArg := some buf, dbInsert := none,
        meta := none, abortedDuringRead := true, isLoadingAfter := false }
  | LoopExit.finished buf markerIdx meta updates =>
      let finalContent :=
        match markerIdx with
        | some idx => buf.take idx
        | none => buf
      let fin : Option Str :=
        match meta with
        | some m => jsonGet m "content".data
        | none => some finalContent
      { updates := updates, finalizeArg := fin, dbInsert := some finalContent,
        meta := meta, abortedDuringRead := false, isLoadingAfter := false }

/-! ## Server-side encoder (api.stream.ts) -/

/-- One provider chunk as consumed at api.stream.ts lines 84-108:
either `chunk.text()` returns a string or it throws (the `catch` with
`continue`). -/
inductive ProviderChunk
  | ok (s : Str)
  | err
deriving DecidableEq, Repr

/-- The chunk-processing loop (api.stream.ts lines 83-108): a throwing
chunk is skipped entirely; an empty text is skipped by `if (text)`;
otherwise the text is added to `fullResponse` and enqueued one character
per fragment (lines 96-100).  Returns (emitted fragments, fullResponse). -/
def encodeChunks : List ProviderChunk → (List Str × Str)
  | [] => ([], [])
  | ProviderChunk.err :: rest => encodeChunks rest
  | ProviderChunk.ok s :: rest =>
      if s.isEmpty then encodeChunks rest
      else
        let p := encodeChunks rest
        (s.map (fun c => [c]) ++ p.1, s ++ p.2)

/-- The JSON object written after the marker on normal completion
(api.stream.ts lines 112-119). -/
structure StreamTrailer where
  id : String
  chat_id : String
  role : String
  content : Str
  model : String
  created_at : String
deriving DecidableEq, Repr

/-- Full outcome of one non-aborted encoder run: the fragments emitted
before the marker, then the marker, then the trailer (the aborted run
closes the stream without marker or trailer, lines 86-91 and 120-122,
and is outside this model as the claims condition on normal
completion). -/
def encodeStream (chunks : List ProviderChunk)
    (newId chatId modelId createdAt : String) : List Str × StreamTrailer :=
  let p := encodeChunks chunks
  (p.1,
   { id := newId, chat_id := chatId, role := "assistant",
     content := p.2, model := modelId, created_at := createdAt })

/-! ## sendMessage entry guards and regenerateMessage validation -/

/-- The white-space set of `String.prototype.trim` (ECMA-262 TrimString:
WhiteSpace and LineTerminator code points). -/
def isJsSpace (c : Char) : Bool :=
  c == ' ' || c == '\t' || c == '\n' || c == '\r' ||
  c == '\x0b' || c == '\x0c' || c == '\u00a0' || c == '\ufeff' ||
  c == '\u1680' || c == '\u2000' || c == '\u2001' || c == '\u2002' ||
  c == '\u2003' || c == '\u2004' || c == '\u2005' || c == '\u2006' ||
  c == '\u2007' || c == '\u2008' || c == '\u2009' || c == '\u200a' ||
  c == '\u2028' || c == '\u2029' || c == '\u202f' || c == '\u205f' ||
  c == '\u3000'

/-- `content.trim()` from line 173. -/
def jsTrim (s : Str) : Str :=
  ((s.dropWhile isJsSpace).reverse.dropWhile isJsSpace).reverse

/-- Observable state after `sendMessage`'s synchronous entry phase. -/
structure EntryState where
  msgs : List Message
  isLoading : Bool
  error : Option String
  /-- whether the previously active Turn's abort controller got `.abort()`ed
  during this call (lines 177-179) -/
  activeTokenAborted : Bool
  /-- whether the call went on to start a new Turn (append messages, fetch)
  rather than returning early -/
  proceeded : Bool
deriving DecidableEq, Repr

/-- Entry phase of `sendMessage` (part_003 lines 172-199), up to the
point where the user message is appended.  `activeToken` says whether
`abortControllerRef.current` held a live controller; `chatIdPresent` is
the guard at line 184, `loggedIn` the session guard at line 195.  Blank
input returns before touching anything (line 173); otherwise loading is
raised, the previous controller is aborted unconditionally, and the two
guards may still bail out with an error. -/
def sendMessageEntry (content : Str)
    (chatIdPresent loggedIn activeToken : Bool)
    (msgs : List Message) (isLoading0 : Bool) (error0 : Option String) :
    EntryState :=
  if (jsTrim content).isEmpty then
    { msgs := msgs, isLoading := isLoading0, error := error0,
      activeTokenAborted := false, proceeded := false }
  else if !chatIdPresent then
    { msgs := msgs, isLoading := false,
      error := some "Chat session not properly initialized.",
      activeTokenAborted := activeToken, proceeded := false }
  else if !loggedIn then
    { msgs := msgs, isLoading := false,
      error := some "You must be logged in to send messages",
      activeTokenAborted := activeToken, proceeded := false }
  else
    { msgs := msgs, isLoading := true, error := none,
      activeTokenAborted := activeToken, proceeded := true }

/-- `Array.prototype.findIndex`: index of the first element satisfying
`p`, `none` for the JS `-1`. -/
def findIndex (p : Message → Bool) : List Message → Option Nat
  | [] => none
  | m :: rest => if p m then some 0 else (findIndex p rest).map (· + 1)

/-- Result of the validation head of `regenerateMessage`
(part_003 lines 393-407).  `ok` carries the found index and the element
`messages[messageIndex]` the source reads at line 400. -/
inductive RegenCheck
  | invalidIndex
  | invalidRoles
  | ok (i : Nat) (target : Message)
deriving DecidableEq, Repr

/-- `messages.findIndex(msg => msg.id === messageId)` plus the two guards:
`messageIndex <= 0` (which also covers the JS `-1` for "not found")
rejects, then the target must be an assistant message immediately
preceded by a user message (lines 393-407). -/
def regenFindCheck (messageId : String) (msgs : List Message) : RegenCheck :=
  match findIndex (fun m => m.id == messageId) msgs with
  | none => RegenCheck.invalidIndex
  | some 0 => RegenCheck.invalidIndex
  | some (i + 1) =>
      match msgs[i + 1]?, msgs[i]? with
      | some target, some prev =>
          if target.role == "assistant" && prev.role == "user"
          then RegenCheck.ok (i + 1) target
          else RegenCheck.invalidRoles
      | _, _ => RegenCheck.invalidIndex

/-- Observable state after `regenerateMessage`'s synchronous phase, up to
and including the history-push update at lines 422-434. -/
structure RegenOutcome where
  msgs : List Message
  isLoading : Bool
  error : Option String
  /-- whether the previously active Turn's controller got aborted at
  lines 386-388 -/
  activeTokenAborted : Bool
  /-- whether the call validated and performed the regeneration-start
  update (and so goes on to issue the streaming request) -/
  started : Bool
deriving DecidableEq, Repr

/-- `regenerateMessage` from entry through the streaming-start update
(part_003 lines 381-434): loading raised and the previous controller
aborted *before* any validation (lines 382-391); an invalid index or
role pair then resets loading and sets the error with the message list
untouched (lines 394-398, 403-407); a valid target has its current
content pushed onto the front of its history while content is cleared
and streaming starts (lines 418-434).  The session lookup (lines
410-416) is modelled as signed-in, which the reject paths never reach. -/
def regenValidate (messageId : String) (msgs : List Message)
    (activeToken : Bool) : RegenOutcome :=
  match regenFindCheck messageId msgs with
  | RegenCheck.invalidIndex =>
      { msgs := msgs, isLoading := false,
        error := some "Cannot regenerate the first message or a user message.",
        activeTokenAborted := activeToken, started := false }
  | RegenCheck.invalidRoles =>
      { msgs := msgs, isLoading := false,
        error := some "Regeneration requires an assistant message preceded by a user message.",
        activeTokenAborted := activeToken, started := false }
  | RegenCheck.ok _ target =>
      { msgs := regenStartUpdate messageId
          (target.content :: (target.history.getD [])) msgs,
        isLoading := true, error := none,
        activeTokenAborted := activeToken, started := true }

/-- A sequence of fragments delivered in receipt order, each applied with
`updateStreamingContent` (the per-chunk call at part_003 line 315). -/
def applyFragments (mid : String) (frags : List Str) (msgs : List Message) :
    List Message :=
  frags.foldl (fun acc f => updateStreamingContent mid f acc) msgs

/-- A streaming target used in concrete instantiations. -/
def demoStreamTarget : Message :=
  { id := "m1", chat_id := "c1", role := "assistant", content := [],
    created_at := "t", isStreaming := some true, streamingContent := none }

/-- One completed regeneration: the synchronous validation-and-start
phase of `regenerateMessage` followed by the finalize call with the newly
streamed content (part_003 line 526). -/
def regenOnce (mid : String) (newContent : Str) (msgs : List Message)
    (tok : Bool) : List Message :=
  finalizeStreamingMessage mid newContent (regenValidate mid msgs tok).msgs

/-- Concrete user/assistant exchange used in instantiations. -/
def demoRegenUser : Message := userMessageOf "u1" "c1" "q".data "t1" "U"

/-- The assistant message with content `"A"` and empty history. -/
def demoRegenAsst : Message :=
  { id := "a1", chat_id := "c1", role := "assistant", content := "A".data,
    created_at := "t2", history := some [] }

/-! ## Helper lemmas -/

theorem isPrefixOf_append_of_isPrefixOf (l xs ys : Str)
    (h : l.isPrefixOf xs = true) : l.isPrefixOf (xs ++ ys) = true := by
  have h1 : l <+: xs := List.isPrefixOf_iff_prefix.mp h
  exact List.isPrefixOf_iff_prefix.mpr (h1.trans (List.prefix_append xs ys))

theorem strIndexOf_append_none (pat xs ys : Str)
    (h : strIndexOf pat (xs ++ ys) = none) : strIndexOf pat xs = none := by
  induction xs with
  | nil =>
      by_cases hp : pat.isPrefixOf ([] : Str) = true
      · exfalso
        have : pat.isPrefixOf (([] : Str) ++ ys) = true :=
          isPrefixOf_append_of_isPrefixOf _ _ _ hp
        simp only [strIndexOf, List.nil_append] at h
        simp only [List.nil_append] at this
        cases pat with
        | nil => cases ys with
          | nil => simp [strIndexOf] at h
          | cons c cs => simp [strIndexOf, List.isPrefixOf] at h
        | cons p ps => simp [List.isPrefixOf] at hp
      · simp [strIndexOf, hp]
  | cons c rest ih =>
      simp only [List.cons_append, strIndexOf, List.append_eq] at h ⊢
      by_cases hp : pat.isPrefixOf (c :: (rest ++ ys)) = true
      · rw [if_pos hp] at h; exact absurd h (by simp)
      · rw [if_neg hp] at h
        have hrest : strIndexOf pat (rest ++ ys) = none := by
          cases hrec : strIndexOf pat (rest ++ ys) with
          | none => rfl
          | some k => rw [hrec] at h; simp at h
        have hpx : pat.isPrefixOf (c :: rest) = false := by
          by_cases hq : pat.isPrefixOf (c :: rest) = true
          · exfalso
            have := isPrefixOf_append_of_isPrefixOf pat (c :: rest) ys hq
            simp only [List.cons_append] at this
            rw [this] at hp; exact hp rfl
          · exact Bool.not_eq_true _ |>.mp hq
        simp [hpx, ih hrest]

theorem readLoop_no_marker (chunks : List Str) (tail : List (Bool × ReadEvent))
    (buf : Str) (updates : List Str)
    (h : strIndexOf streamCompleteMarker (buf ++ chunks.flatten) = none) :
    readLoop ((chunks.map fun c => (false, ReadEvent.chunk c)) ++ tail) buf updates =
    readLoop tail (buf ++ chunks.flatten) (updates ++ chunks) := by
  induction chunks generalizing buf updates with
  | nil => simp
  | cons c cs ih =>
      rw [List.flatten_cons, ← List.append_assoc] at h
      have hone : strIndexOf streamCompleteMarker (buf ++ c) = none :=
        strIndexOf_append_none _ _ _ h
      simp only [List.map_cons, List.cons_append, readLoop, Bool.false_eq_true,
        if_false, hone, List.append_eq]
      rw [ih (buf ++ c) (updates ++ [c]) h]
      simp [List.flatten_cons, List.append_assoc]

theorem finalizeStreamingMessage_get (aid : String) (fc : Str) (msgs : List Message)
    (j : Nat) (m : Message) (hj : msgs[j]? = some m) (hid : m.id = aid) :
    (finalizeStreamingMessage aid fc msgs)[j]? =
      some { m with content := fc, isStreaming := some false,
                    streamingContent := none } := by
  unfold finalizeStreamingMessage
  rw [List.getElem?_map, hj, Option.map_some']
  simp [hid]

/-- C7.  Decoder degraded mode: a received byte stream that never contains
the completion marker is finalized with the entire received buffer as the
content: no metadata is parsed, the whole buffer is also what gets
persisted, and every chunk was forwarded to the UI in order. -/
theorem missing_marker_degraded_finalize (chunks : List Str)
    (hnm : strIndexOf streamCompleteMarker chunks.flatten = none) :
    (processStream ((chunks.map fun c => (false, ReadEvent.chunk c)) ++
        [(false, ReadEvent.done)])).finalizeArg = some chunks.flatten ∧
    (processStream ((chunks.map fun c => (false, ReadEvent.chunk c)) ++
        [(false, ReadEvent.done)])).dbInsert = some chunks.flatten ∧
    (processStream ((chunks.map fun c => (false, ReadEvent.chunk c)) ++
        [(false, ReadEvent.done)])).meta = none ∧
    (processStream ((chunks.map fun c => (false, ReadEvent.chunk c)) ++
        [(false, ReadEvent.done)])).updates = chunks := by
  have hl := readLoop_no_marker chunks [(false, ReadEvent.done)] [] []
    (by simpa using hnm)
  simp only [List.nil_append] at hl
  simp [processStream, hl, readLoop]

theorem missing_marker_degraded_finalize_witness :
    strIndexOf streamCompleteMarker (["Hel".data, "lo".data].flatten) = none ∧
    (processStream ((["Hel".data, "lo".data].map
        fun c => (false, ReadEvent.chunk c)) ++
        [(false, ReadEvent.done)])).finalizeArg = some "Hello".data := by
  refine ⟨by decide, ?_⟩
  have h := missing_marker_degraded_finalize ["Hel".data, "lo".data] (by decide)
  simpa using h.1

/-- C6.  Cancellation during stream reading: when the cancellation token
fires during the read loop (the abort check at part_003 line 286), the
turn finalizes the assistant message with exactly the text accumulated so
far, the finalized message has `isStreaming = false` and no streaming
buffer, loading ends false, and the function returns before the database
insert of the assistant message, so partial content is never persisted
(`dbInsert = none`). -/
theorem abort_finalizes_partial_without_persist
    (chunks : List Str) (e : ReadEvent) (rest : List (Bool × ReadEvent))
    (aid : String) (msgs : List Message) (j : Nat) (m : Message)
    (hnm : strIndexOf streamCompleteMarker chunks.flatten = none)
    (hj : msgs[j]? = some m) (hid : m.id = aid) :
    (processStream ((chunks.map fun c => (false, ReadEvent.chunk c)) ++
        (true, e) :: rest)).abortedDuringRead = true ∧
    (processStream ((chunks.map fun c => (false, ReadEvent.chunk c)) ++
        (true, e) :: rest)).finalizeArg = some chunks.flatten ∧
    (processStream ((chunks.map fun c => (false, ReadEvent.chunk c)) ++
        (true, e) :: rest)).dbInsert = none ∧
    (processStream ((chunks.map fun c => (false, ReadEvent.chunk c)) ++
        (true, e) :: rest)).isLoadingAfter = false ∧
    (finalizeStreamingMessage aid chunks.flatten msgs)[j]? =
      some { m with content := chunks.flatten, isStreaming := some false,
                    streamingContent := none } := by
  have hl := readLoop_no_marker chunks ((true, e) :: rest) [] []
    (by simpa using hnm)
  simp only [List.nil_append] at hl
  refine ⟨?_, ?_, ?_, ?_, finalizeStreamingMessage_get aid _ msgs j m hj hid⟩ <;>
    simp [processStream, hl, readLoop]

theorem abort_finalizes_partial_without_persist_witness :
    strIndexOf streamCompleteMarker (["He".data, "llo".data].flatten) = none ∧
    [assistantPlaceholder "a1" "c1" "t" "U"][0]? =
      some (assistantPlaceholder "a1" "c1" "t" "U") ∧
    (assistantPlaceholder "a1" "c1" "t" "U").id = "a1" ∧
    (processStream ((["He".data, "llo".data].map
        fun c => (false, ReadEvent.chunk c)) ++
        (true, ReadEvent.chunk "x".data) :: [])).dbInsert = none ∧
    (finalizeStreamingMessage "a1" (["He".data, "llo".data].flatten)
        [assistantPlaceholder "a1" "c1" "t" "U"])[0]? =
      some { assistantPlaceholder "a1" "c1" "t" "U" with
               content := (["He".data, "llo".data].flatten),
               isStreaming := some false, streamingContent := none } := by
  have h := abort_finalizes_partial_without_persist ["He".data, "llo".data]
    (ReadEvent.chunk "x".data) [] "a1" [assistantPlaceholder "a1" "c1" "t" "U"]
    0 (assistantPlaceholder "a1" "c1" "t" "U") (by decide) (by decide) (by decide)
  exact ⟨by decide, by decide, by decide, h.2.2.1, h.2.2.2.2⟩

/-- The trailing JSON object of the round-trip test vector (braces written
as `\x7b`/`\x7d` code points). -/
def roundTripTail : Str :=
  "\x7b\"id\":\"1\",\"chat_id\":\"c1\",\"role\":\"assistant\",\"content\":\"ab\",\"model\":\"m\",\"created_at\":\"t\"\x7d".data

/-- C4.  Codec round trip: decoding the byte stream `"ab"`, then the
literal marker, then the metadata JSON (the marker and trailer arriving
together, exactly as the encoder enqueues them in one chunk at
api.stream.ts line 112) streams the text `"ab"` to the UI before the
marker, and produces exactly one finalize whose content argument is
`"ab"`, with the parsed metadata carrying `model = "m"`. -/
theorem codec_round_trip_ab :
    (processStream [(false, ReadEvent.chunk "ab".data),
        (false, ReadEvent.chunk (streamCompleteMarker ++ roundTripTail))]).updates =
      ["ab".data] ∧
    (processStream [(false, ReadEvent.chunk "ab".data),
        (false, ReadEvent.chunk (streamCompleteMarker ++ roundTripTail))]).finalizeArg =
      some "ab".data ∧
    ((processStream [(false, ReadEvent.chunk "ab".data),
        (false, ReadEvent.chunk (streamCompleteMarker ++ roundTripTail))]).meta.map
      fun md => jsonGet md "model".data) = some (some "m".data) ∧
    (processStream [(false, ReadEvent.chunk "ab".data),
        (false, ReadEvent.chunk (streamCompleteMarker ++ roundTripTail))]).abortedDuringRead =
      false := by
  decide

/-- C1 (code bug evidence).  The catch handler of `sendMessage` for a
non-abort transport error (part_003 line 373) filters the message list
with `msg.id !== assistantMessageId && msg.role === 'assistant'`, keeping
only *assistant* messages other than the placeholder: at this failing
input (two prior user messages plus the in-progress placeholder, fetch
rejecting with a network error) the whole conversation is wiped to `[]`.
The error string is set and loading is cleared as claimed, but the prior
user messages are not preserved and a placeholder holding partial text is
removed rather than finalized, contradicting both the claim and the
code's own comment "Clear placeholder on error". -/
theorem sendMessage_error_catch_drops_prior_user_messages :
    sendErrorCatch "a1" "Failed to send message. Status: 500"
      [userMessageOf "u1" "c1" "hi".data "t1" "U",
       userMessageOf "u2" "c1" "second".data "t2" "U",
       { assistantPlaceholder "a1" "c1" "t3" "U" with
           streamingContent := some "partial".data }] =
      { msgs := [], error := some "Failed to send message. Status: 500",
        isLoading := false } := by
  decide

/-- C2 (counterexample).  `sendMessage` called with non-blank input while
a Turn is already active does *not* reject: the entry phase aborts the
active Turn's controller (part_003 lines 177-181) and proceeds to start a
new request, refuting "rejects without starting a new request — the
caller must call stopGeneration first". -/
theorem sendMessage_active_turn_proceeds_cex :
    (sendMessageEntry "hi".data true true true [] false none).proceeded = true ∧
    (sendMessageEntry "hi".data true true true [] false none).activeTokenAborted =
      true := by
  decide

/-- C2 (amended).  Blank input (empty or whitespace-only) returns without
mutating any state; non-blank input while a Turn is active is not
rejected: the active Turn's cancellation token is aborted and the call
proceeds to start a new request, so two concurrent Turns are prevented by
aborting the old one rather than by rejection. -/
theorem sendMessage_blank_noop_active_turn_aborts
    (content : Str) (chatIdPresent loggedIn activeToken isLoading0 : Bool)
    (msgs : List Message) (error0 : Option String) :
    ((jsTrim content).isEmpty = true →
      sendMessageEntry content chatIdPresent loggedIn activeToken msgs isLoading0 error0 =
        { msgs := msgs, isLoading := isLoading0, error := error0,
          activeTokenAborted := false, proceeded := false }) ∧
    ((jsTrim content).isEmpty = false → chatIdPresent = true → loggedIn = true →
      (sendMessageEntry content chatIdPresent loggedIn activeToken msgs isLoading0 error0).proceeded =
        true ∧
      (sendMessageEntry content chatIdPresent loggedIn activeToken msgs isLoading0 error0).activeTokenAborted =
        activeToken) := by
  constructor
  · intro hb
    simp [sendMessageEntry, hb]
  · intro hb hc hl
    simp [sendMessageEntry, hb, hc, hl]

theorem sendMessage_blank_noop_active_turn_aborts_witness :
    (jsTrim "  ".data).isEmpty = true ∧
    sendMessageEntry "  ".data true true true [] false none =
      { msgs := [], isLoading := false, error := none,
        activeTokenAborted := false, proceeded := false } ∧
    (jsTrim "hi".data).isEmpty = false ∧
    (sendMessageEntry "hi".data true true true [] false none).proceeded = true := by
  refine ⟨by decide, ?_, by decide, ?_⟩
  · exact (sendMessage_blank_noop_active_turn_aborts "  ".data true true true false
      [] none).1 (by decide)
  · exact ((sendMessage_blank_noop_active_turn_aborts "hi".data true true true false
      [] none).2 (by decide) rfl rfl).1

/-- C3 (counterexample).  Two overlapping Turns transiently leave two
messages with `isStreaming = true`.  Turn 1's `sendMessage` appends its
user message and streaming placeholder (part_003 lines 212, 247) and
suspends at `await reader.read()` (line 284).  A second `sendMessage`
then aborts turn 1's controller (line 178) — which only takes effect when
turn 1 resumes at line 286 or in its catch at line 367 — and performs its
own two appends first.  After turn 2's placeholder append, both
placeholders are flagged streaming, violating the invariant. -/
theorem overlapping_turns_break_streaming_invariant_cex :
    ¬ atMostOneStreaming
        (sendPreLoop "u2" "a2" "c" "yo".data "t2" "U"
          (sendPreLoop "u1" "a1" "c" "hi".data "t1" "U" [])) := by
  decide

theorem countStreaming_updateStreamingContent (mid : String) (chunk : Str)
    (msgs : List Message) :
    countStreaming (updateStreamingContent mid chunk msgs) = countStreaming msgs := by
  unfold countStreaming updateStreamingContent
  rw [List.countP_map]
  refine List.countP_congr fun m _ => ?_
  by_cases hm : m.id = mid <;> simp [hm]

theorem countStreaming_finalize_le (mid : String) (fc : Str) (msgs : List Message) :
    countStreaming (finalizeStreamingMessage mid fc msgs) ≤ countStreaming msgs := by
  unfold countStreaming finalizeStreamingMessage
  rw [List.countP_map]
  refine List.countP_mono_left fun m _ hp => ?_
  by_cases hm : m.id = mid
  · simp [hm] at hp
  · simpa [hm] using hp

theorem countStreaming_regenStart_le_one (mid : String) (hist : List Str)
    (msgs : List Message) (h0 : countStreaming msgs = 0)
    (hdup : msgs.countP (fun m => m.id == mid) ≤ 1) :
    countStreaming (regenStartUpdate mid hist msgs) ≤ 1 := by
  unfold countStreaming regenStartUpdate
  rw [List.countP_map]
  refine le_trans (le_trans (List.countP_mono_left fun m hm hp => ?_) hdup) le_rfl
  by_cases hid : m.id = mid
  · simp [hid]
  · exfalso
    have hall := List.countP_eq_zero.mp h0
    have := hall m hm
    simp [hid] at hp
    simp at this
    exact this hp

/-- C3 (amended).  Each individual state update preserves the
at-most-one-streaming invariant: `updateStreamingContent` leaves the
streaming count unchanged, `finalizeStreamingMessage` never increases it,
appending the user message leaves it unchanged, and the streaming-start
updates of `sendMessage` and `regenerateMessage` keep it at most one
*provided no message is currently streaming when they run* — the proviso
the source does not enforce: when a new Turn's placeholder is appended
while an aborted Turn's placeholder is still streaming (before that Turn
observes its abort), two messages are transiently streaming. -/
theorem streaming_invariant_per_update
    (msgs : List Message) (mid umid aid cid t uid : String)
    (chunk fc : Str) (hist : List Str) :
    countStreaming (updateStreamingContent mid chunk msgs) = countStreaming msgs ∧
    countStreaming (finalizeStreamingMessage mid fc msgs) ≤ countStreaming msgs ∧
    countStreaming (msgs ++ [userMessageOf umid cid chunk t uid]) =
      countStreaming msgs ∧
    (countStreaming msgs = 0 →
      countStreaming (msgs ++ [assistantPlaceholder aid cid t uid]) = 1) ∧
    (countStreaming msgs = 0 → msgs.countP (fun m => m.id == mid) ≤ 1 →
      countStreaming (regenStartUpdate mid hist msgs) ≤ 1) := by
  refine ⟨countStreaming_updateStreamingContent mid chunk msgs,
    countStreaming_finalize_le mid fc msgs, ?_, ?_,
    countStreaming_regenStart_le_one mid hist msgs⟩
  · simp [countStreaming, List.countP_append, userMessageOf]
  · intro h0
    simp only [countStreaming, List.countP_append] at h0 ⊢
    simp [h0, assistantPlaceholder]

theorem streaming_invariant_per_update_witness :
    countStreaming [demoRegenUser] = 0 ∧
    [demoRegenUser].countP (fun m => m.id == "a1") ≤ 1 ∧
    countStreaming ([demoRegenUser] ++
      [assistantPlaceholder "a1" "c" "t" "U"]) = 1 ∧
    countStreaming (regenStartUpdate "a1" ["old".data] [demoRegenUser]) ≤ 1 ∧
    countStreaming (updateStreamingContent "a1" "x".data [demoRegenUser]) =
      countStreaming [demoRegenUser] := by
  refine ⟨by decide, by decide, ?_, ?_, ?_⟩
  · exact (streaming_invariant_per_update [demoRegenUser] "a1" "u1" "a1"
      "c" "t" "U" "x".data "y".data ["old".data]).2.2.2.1 (by decide)
  · exact (streaming_invariant_per_update [demoRegenUser] "a1" "u1" "a1"
      "c" "t" "U" "x".data "y".data ["old".data]).2.2.2.2 (by decide)
      (by decide)
  · exact (streaming_invariant_per_update [demoRegenUser] "a1" "u1" "a1"
      "c" "t" "U" "x".data "y".data ["old".data]).1

theorem flatten_map_singleton (s : Str) : (s.map fun c => [c]).flatten = s := by
  induction s with
  | nil => rfl
  | cons c rest ih => simp [ih]

theorem encodeChunks_flatten_eq (chunks : List ProviderChunk) :
    (encodeChunks chunks).1.flatten = (encodeChunks chunks).2 := by
  induction chunks with
  | nil => rfl
  | cons c rest ih =>
      cases c with
      | err => simpa [encodeChunks] using ih
      | ok s =>
          by_cases hs : s.isEmpty
          · simpa [encodeChunks, hs] using ih
          · simp [encodeChunks, hs, List.flatten_append, flatten_map_singleton, ih]

/-- C10.  Server-encoder postcondition: on a non-aborted run, the
`content` field of the trailing JSON object written after the marker
equals the in-order concatenation of all text fragments emitted on the
stream before the marker (api.stream.ts lines 83-119: every enqueued
character is also accumulated into `fullResponse`, and the trailer's
`content` is exactly `fullResponse`). -/
theorem encoder_trailer_content_eq_emitted_flatten
    (chunks : List ProviderChunk) (newId chatId modelId createdAt : String) :
    (encodeStream chunks newId chatId modelId createdAt).1.flatten =
      (encodeStream chunks newId chatId modelId createdAt).2.content := by
  simp [encodeStream, encodeChunks_flatten_eq]

theorem updateStreamingContent_get_ne (mid : String) (chunk : Str)
    (msgs : List Message) (j : Nat) (m : Message)
    (hj : msgs[j]? = some m) (hne : m.id ≠ mid) :
    (updateStreamingContent mid chunk msgs)[j]? = some m := by
  unfold updateStreamingContent
  rw [List.getElem?_map, hj, Option.map_some']
  simp [hne]

theorem updateStreamingContent_get_eq (mid : String) (chunk : Str)
    (msgs : List Message) (j : Nat) (m : Message)
    (hj : msgs[j]? = some m) (hid : m.id = mid) :
    (updateStreamingContent mid chunk msgs)[j]? =
      some { m with
             streamingContent := some (m.streamingContent.getD [] ++ chunk) } := by
  unfold updateStreamingContent
  rw [List.getElem?_map, hj, Option.map_some']
  simp [hid]

theorem applyFragments_get_ne (mid : String) (frags : List Str) :
    ∀ (msgs : List Message) (j : Nat) (m : Message), msgs[j]? = some m →
      m.id ≠ mid → (applyFragments mid frags msgs)[j]? = some m := by
  induction frags with
  | nil => intro msgs j m hj _; exact hj
  | cons f fs ih =>
      intro msgs j m hj hne
      exact ih _ j m (updateStreamingContent_get_ne mid f msgs j m hj hne) hne

theorem applyFragments_get_eq (mid : String) (frags : List Str) :
    frags ≠ [] →
    ∀ (msgs : List Message) (j : Nat) (m : Message), msgs[j]? = some m →
      m.id = mid →
      (applyFragments mid frags msgs)[j]? =
        some { m with
               streamingContent := some (m.streamingContent.getD [] ++ frags.flatten) } := by
  induction frags with
  | nil => intro h; cases h rfl
  | cons f fs ih =>
      intro _ msgs j m hj hid
      have hstep := updateStreamingContent_get_eq mid f msgs j m hj hid
      by_cases hfs : fs = []
      · subst hfs
        show (updateStreamingContent mid f msgs)[j]? = _
        rw [hstep]
        simp
      · have hres := ih hfs (updateStreamingContent mid f msgs) j _ hstep
          (by simpa using hid)
        show (applyFragments mid fs (updateStreamingContent mid f msgs))[j]? = _
        rw [hres]
        simp [List.append_assoc]

/-- C9.  `updateStreamingContent` strictly appends: applying any sequence
of fragments in receipt order leaves every message with a different id
untouched, and leaves the target's `streamingContent` equal to its prior
buffer followed by the in-order concatenation of the fragments. -/
theorem updateStreamingContent_strict_append (mid : String) (frags : List Str)
    (msgs : List Message) (j : Nat) (m : Message) (hj : msgs[j]? = some m) :
    (m.id ≠ mid → (applyFragments mid frags msgs)[j]? = some m) ∧
    (m.id = mid → frags ≠ [] →
      (applyFragments mid frags msgs)[j]? =
        some { m with
               streamingContent := some (m.streamingContent.getD [] ++ frags.flatten) }) :=
  ⟨fun hne => applyFragments_get_ne mid frags msgs j m hj hne,
   fun hid hfs => applyFragments_get_eq mid frags hfs msgs j m hj hid⟩

theorem updateStreamingContent_strict_append_witness :
    [demoStreamTarget][0]? = some demoStreamTarget ∧
    demoStreamTarget.id = "m1" ∧
    (applyFragments "m1" ["Hel".data, "lo, ".data, "world".data]
        [demoStreamTarget])[0]? =
      some { demoStreamTarget with streamingContent := some "Hello, world".data } := by
  refine ⟨rfl, rfl, ?_⟩
  have h := (updateStreamingContent_strict_append "m1"
    ["Hel".data, "lo, ".data, "world".data] [demoStreamTarget] 0
    demoStreamTarget rfl).2 rfl (by decide)
  simpa using h

/-- C8 (counterexample).  `regenerateMessage` on an invalid target does
mutate state: before validating it unconditionally aborts any active
Turn's cancellation token (part_003 lines 386-391).  Here the target is
the first message of the conversation, the call rejects with a
validation error, yet the active Turn's token has been aborted — so the
in-flight generation is killed — refuting "mutates no state". -/
theorem regenerate_invalid_target_aborts_active_token_cex :
    (regenValidate "a1" [assistantPlaceholder "a1" "c" "t" "U"] true).started =
      false ∧
    (regenValidate "a1" [assistantPlaceholder "a1" "c" "t" "U"] true).error.isSome =
      true ∧
    (regenValidate "a1" [assistantPlaceholder "a1" "c" "t" "U"] true).activeTokenAborted =
      true := by
  decide

theorem regenFindCheck_of_valid (mid : String) (msgs : List Message)
    (i : Nat) (target prev : Message)
    (hf : findIndex (fun x => x.id == mid) msgs = some (i + 1))
    (ht : msgs[i + 1]? = some target) (hp : msgs[i]? = some prev)
    (hr : target.role = "assistant") (hpr : prev.role = "user") :
    regenFindCheck mid msgs = RegenCheck.ok (i + 1) target := by
  unfold regenFindCheck
  simp [hf, ht, hp, hr, hpr]

theorem regenFindCheck_ok_elim (mid : String) (msgs : List Message)
    (i : Nat) (target : Message)
    (h : regenFindCheck mid msgs = RegenCheck.ok i target) :
    ∃ i0 prev, i = i0 + 1 ∧
      findIndex (fun x => x.id == mid) msgs = some (i0 + 1) ∧
      msgs[i0 + 1]? = some target ∧ msgs[i0]? = some prev ∧
      target.role = "assistant" ∧ prev.role = "user" := by
  unfold regenFindCheck at h
  cases hf : findIndex (fun x => x.id == mid) msgs with
  | none => simp [hf] at h
  | some n =>
      cases n with
      | zero => simp [hf] at h
      | succ i0 =>
          cases ht : msgs[i0 + 1]? with
          | none => simp [hf, ht] at h
          | some t =>
              cases hp : msgs[i0]? with
              | none => simp [hf, ht, hp] at h
              | some p =>
                  simp only [hf, ht, hp] at h
                  by_cases hcond : (t.role == "assistant" && p.role == "user") = true
                  · rw [if_pos hcond] at h
                    cases h
                    simp only [Bool.and_eq_true, beq_iff_eq] at hcond
                    exact ⟨i0, p, rfl, rfl, ht, hp, hcond.1, hcond.2⟩
                  · rw [if_neg hcond] at h
                    cases h

/-- C8 (amended).  `regenerateMessage` starts a regeneration exactly when
the target is an assistant message immediately preceded by a user
message; every other target rejects synchronously with a validation
error, leaves the message list unmutated and loading off — but the call
is not entirely mutation-free: it aborts any active Turn's cancellation
token before validating (part_003 lines 386-391). -/
theorem regenerate_validation_rejects (mid : String) (msgs : List Message)
    (tok : Bool) :
    (regenValidate mid msgs tok).activeTokenAborted = tok ∧
    ((regenValidate mid msgs tok).started = false →
      (regenValidate mid msgs tok).msgs = msgs ∧
      (regenValidate mid msgs tok).error.isSome = true ∧
      (regenValidate mid msgs tok).isLoading = false) ∧
    ((regenValidate mid msgs tok).started = true ↔
      ∃ i target prev, findIndex (fun x => x.id == mid) msgs = some (i + 1) ∧
        msgs[i + 1]? = some target ∧ msgs[i]? = some prev ∧
        target.role = "assistant" ∧ prev.role = "user") := by
  unfold regenValidate
  cases hchk : regenFindCheck mid msgs with
  | invalidIndex =>
      refine ⟨rfl, fun _ => ⟨rfl, rfl, rfl⟩, ?_, ?_⟩
      · intro hc; cases hc
      · rintro ⟨i, target, prev, hf, ht, hp, hr, hpr⟩
        rw [regenFindCheck_of_valid mid msgs i target prev hf ht hp hr hpr] at hchk
        cases hchk
  | invalidRoles =>
      refine ⟨rfl, fun _ => ⟨rfl, rfl, rfl⟩, ?_, ?_⟩
      · intro hc; cases hc
      · rintro ⟨i, target, prev, hf, ht, hp, hr, hpr⟩
        rw [regenFindCheck_of_valid mid msgs i target prev hf ht hp hr hpr] at hchk
        cases hchk
  | ok i target =>
      refine ⟨rfl, fun hc => absurd hc (by simp), ?_, fun _ => rfl⟩
      intro _
      obtain ⟨i0, prev, _, hf, ht, hp, hr, hpr⟩ :=
        regenFindCheck_ok_elim mid msgs i target hchk
      exact ⟨i0, target, prev, hf, ht, hp, hr, hpr⟩

theorem regenerate_validation_rejects_witness :
    (regenValidate "u1" [userMessageOf "u1" "c" "q".data "t" "U"] false).started =
      false ∧
    (regenValidate "u1" [userMessageOf "u1" "c" "q".data "t" "U"] false).msgs =
      [userMessageOf "u1" "c" "q".data "t" "U"] ∧
    (regenValidate "u1" [userMessageOf "u1" "c" "q".data "t" "U"] false).error.isSome =
      true := by
  have h := regenerate_validation_rejects "u1"
    [userMessageOf "u1" "c" "q".data "t" "U"] false
  have hs := h.2.1 (by decide)
  exact ⟨by decide, hs.1, hs.2.1⟩

theorem finalizeStreamingMessage_get_ne (mid : String) (fc : Str)
    (l : List Message) (j : Nat) (x : Message)
    (hj : l[j]? = some x) (hne : x.id ≠ mid) :
    (finalizeStreamingMessage mid fc l)[j]? = some x := by
  unfold finalizeStreamingMessage
  rw [List.getElem?_map, hj, Option.map_some']
  simp [hne]

theorem regenStartUpdate_get_eq (mid : String) (hist : List Str)
    (l : List Message) (j : Nat) (x : Message)
    (hj : l[j]? = some x) (hid : x.id = mid) :
    (regenStartUpdate mid hist l)[j]? =
      some { x with history := some hist, isStreaming := some true,
                    streamingContent := some [], content := [] } := by
  unfold regenStartUpdate
  rw [List.getElem?_map, hj, Option.map_some']
  simp [hid]

theorem regenStartUpdate_get_ne (mid : String) (hist : List Str)
    (l : List Message) (j : Nat) (x : Message)
    (hj : l[j]? = some x) (hne : x.id ≠ mid) :
    (regenStartUpdate mid hist l)[j]? = some x := by
  unfold regenStartUpdate
  rw [List.getElem?_map, hj, Option.map_some']
  simp [hne]

theorem findIndex_id_map (F : Message → Message)
    (hF : ∀ x, (F x).id = x.id) (mid : String) (l : List Message) :
    findIndex (fun x => x.id == mid) (l.map F) =
      findIndex (fun x => x.id == mid) l := by
  induction l with
  | nil => rfl
  | cons a l ih => simp [findIndex, hF, ih]

theorem findIndex_finalizeStreamingMessage (mid mid2 : String) (fc : Str)
    (l : List Message) :
    findIndex (fun x => x.id == mid2) (finalizeStreamingMessage mid fc l) =
      findIndex (fun x => x.id == mid2) l := by
  unfold finalizeStreamingMessage
  exact findIndex_id_map _ (fun x => by by_cases hx : x.id = mid <;> simp [hx])
    mid2 l

theorem findIndex_regenStartUpdate (mid mid2 : String) (hist : List Str)
    (l : List Message) :
    findIndex (fun x => x.id == mid2) (regenStartUpdate mid hist l) =
      findIndex (fun x => x.id == mid2) l := by
  unfold regenStartUpdate
  exact findIndex_id_map _ (fun x => by by_cases hx : x.id = mid <;> simp [hx])
    mid2 l

theorem findIndex_found (p : Message → Bool) :
    ∀ (l : List Message) (n : Nat), findIndex p l = some n →
      ∃ x, l[n]? = some x ∧ p x = true := by
  intro l
  induction l with
  | nil => intro n h; cases h
  | cons a l ih =>
      intro n h
      unfold findIndex at h
      by_cases hp : p a = true
      · rw [if_pos hp] at h; cases h; exact ⟨a, by simp, hp⟩
      · rw [if_neg hp] at h
        cases hn : findIndex p l with
        | none => rw [hn] at h; cases h
        | some k =>
            rw [hn] at h
            simp only [Option.map_some'] at h
            cases h
            obtain ⟨x, hx, hpx⟩ := ih k hn
            exact ⟨x, by simpa using hx, hpx⟩

theorem finalize_regen_get_keep (mid : String) (fc : Str) (hist : List Str)
    (l : List Message) (j : Nat) (x : Message) (hj : l[j]? = some x) :
    ∃ y, (finalizeStreamingMessage mid fc (regenStartUpdate mid hist l))[j]? =
        some y ∧ y.role = x.role ∧ y.id = x.id := by
  unfold finalizeStreamingMessage regenStartUpdate
  rw [List.getElem?_map, List.getElem?_map, hj, Option.map_some',
    Option.map_some']
  refine ⟨_, rfl, ?_, ?_⟩ <;> by_cases hx : x.id = mid <;> simp [hx]

/-- C5.  Regeneration history ordering: for an assistant target
(immediately preceded by a user message) with content `A = m.content` and
history `h`, a completed regeneration producing `B` yields
`content = B`, `history = A :: h`; a second completed regeneration
producing `C` yields `content = C`, `history = B :: A :: h` — the
previous content is pushed to the front on every regeneration, the
existing entries `h` are preserved unchanged and in order, and every
message with a different id is untouched. -/
theorem regenerate_history_push_front
    (msgs : List Message) (mid : String) (i : Nat) (m prev : Message)
    (B C : Str) (tok tok2 : Bool) (h : List Str)
    (hfind : findIndex (fun x => x.id == mid) msgs = some (i + 1))
    (hget : msgs[i + 1]? = some m)
    (hprev : msgs[i]? = some prev)
    (hrole : m.role = "assistant") (hprole : prev.role = "user")
    (hh : m.history = some h) :
    (regenOnce mid B msgs tok)[i + 1]? =
      some { m with content := B, history := some (m.content :: h),
                    isStreaming := some false, streamingContent := none } ∧
    (regenOnce mid C (regenOnce mid B msgs tok) tok2)[i + 1]? =
      some { m with content := C, history := some (B :: m.content :: h),
                    isStreaming := some false, streamingContent := none } ∧
    (∀ (j : Nat) (m2 : Message), msgs[j]? = some m2 → m2.id ≠ mid →
      (regenOnce mid C (regenOnce mid B msgs tok) tok2)[j]? = some m2) := by
  have hid : m.id = mid := by
    obtain ⟨x, hx, hpx⟩ := findIndex_found _ msgs (i + 1) hfind
    rw [hget] at hx
    cases hx
    simpa using hpx
  have hchk1 := regenFindCheck_of_valid mid msgs i m prev hfind hget hprev
    hrole hprole
  have hs0 : (regenValidate mid msgs tok).msgs =
      regenStartUpdate mid (m.content :: h) msgs := by
    unfold regenValidate
    rw [hchk1]
    simp [hh]
  have hgm := regenStartUpdate_get_eq mid (m.content :: h) msgs (i + 1) m
    hget hid
  have hc1 : (regenOnce mid B msgs tok)[i + 1]? =
      some { m with content := B, history := some (m.content :: h),
                    isStreaming := some false, streamingContent := none } := by
    show (finalizeStreamingMessage mid B
      (regenValidate mid msgs tok).msgs)[i + 1]? = _
    rw [hs0]
    have := finalizeStreamingMessage_get mid B _ (i + 1) _ hgm
      (by simp [hid])
    simpa using this
  have hfind2 : findIndex (fun x => x.id == mid)
      (regenOnce mid B msgs tok) = some (i + 1) := by
    show findIndex _ (finalizeStreamingMessage mid B
      (regenValidate mid msgs tok).msgs) = _
    rw [hs0, findIndex_finalizeStreamingMessage, findIndex_regenStartUpdate]
    exact hfind
  have hkeep : ∃ y, (regenOnce mid B msgs tok)[i]? = some y ∧
      y.role = prev.role ∧ y.id = prev.id := by
    show ∃ y, (finalizeStreamingMessage mid B
      (regenValidate mid msgs tok).msgs)[i]? = some y ∧ _
    rw [hs0]
    exact finalize_regen_get_keep mid B (m.content :: h) msgs i prev hprev
  obtain ⟨p2, hp2, hp2role, _⟩ := hkeep
  have hchk2 := regenFindCheck_of_valid mid (regenOnce mid B msgs tok) i
    { m with content := B, history := some (m.content :: h),
             isStreaming := some false, streamingContent := none } p2
    hfind2 hc1 hp2 (by simp [hrole]) (by rw [hp2role]; exact hprole)
  have hs2 : (regenValidate mid (regenOnce mid B msgs tok) tok2).msgs =
      regenStartUpdate mid (B :: m.content :: h)
        (regenOnce mid B msgs tok) := by
    unfold regenValidate
    rw [hchk2]
    simp
  have hgm2 := regenStartUpdate_get_eq mid (B :: m.content :: h)
    (regenOnce mid B msgs tok) (i + 1) _ hc1 (by simp [hid])
  have hc2 : (regenOnce mid C (regenOnce mid B msgs tok) tok2)[i + 1]? =
      some { m with content := C, history := some (B :: m.content :: h),
                    isStreaming := some false, streamingContent := none } := by
    show (finalizeStreamingMessage mid C
      (regenValidate mid (regenOnce mid B msgs tok) tok2).msgs)[i + 1]? = _
    rw [hs2]
    have := finalizeStreamingMessage_get mid C _ (i + 1) _ hgm2
      (by simp [hid])
    simpa using this
  refine ⟨hc1, hc2, ?_⟩
  intro j m2 hj hne
  have h1 := regenStartUpdate_get_ne mid (m.content :: h) msgs j m2 hj hne
  have h2 := finalizeStreamingMessage_get_ne mid B _ j m2 h1 hne
  rw [← hs0] at h2
  have h2f : (regenOnce mid B msgs tok)[j]? = some m2 := h2
  have h3 := regenStartUpdate_get_ne mid (B :: m.content :: h)
    (regenOnce mid B msgs tok) j m2 h2f hne
  have h4 := finalizeStreamingMessage_get_ne mid C _ j m2 h3 hne
  rw [← hs2] at h4
  exact h4

theorem regenerate_history_push_front_witness :
    findIndex (fun x => x.id == "a1") [demoRegenUser, demoRegenAsst] =
      some 1 ∧
    (regenOnce "a1" "B".data [demoRegenUser, demoRegenAsst] false)[1]? =
      some { demoRegenAsst with content := "B".data,
                                history := some ["A".data],
                                isStreaming := some false,
                                streamingContent := none } ∧
    (regenOnce "a1" "C".data
        (regenOnce "a1" "B".data [demoRegenUser, demoRegenAsst] false)
        false)[1]? =
      some { demoRegenAsst with content := "C".data,
                                history := some ["B".data, "A".data],
                                isStreaming := some false,
                                streamingContent := none } := by
  have hthm := regenerate_history_push_front [demoRegenUser, demoRegenAsst]
    "a1" 0 demoRegenAsst demoRegenUser "B".data "C".data false false []
    (by decide) (by decide) (by decide) (by decide) (by decide) (by decide)
  refine ⟨by decide, ?_, ?_⟩
  · simpa [demoRegenAsst] using hthm.1
  · simpa [demoRegenAsst] using hthm.2.1
